import Mathlib

/-!
Verification of the client-registry Netlify function
(`netlify/functions/api.ts`): an in-memory key-value store of client
records behind an HTTP-style handler dispatching on method and path
segments.

Modelling conventions:
* The JS `Map` backing `ClientStore` is an association list kept in
  insertion order; `set` updates the first (only) matching entry in
  place and appends fresh keys at the end, `delete` removes the entry,
  matching `Map.prototype.set` / `Map.prototype.delete`.
* `String.prototype.trim` is modelled by `jsTrim` (drop whitespace at
  both ends of the character list).
* `event.path.replace('/.netlify/functions/api/', '')` is modelled by
  `replaceFirstChars` (JS `replace` with a string pattern replaces only
  the first occurrence), and `path.split('/')` by `splitSegments`.
* `new URL(link)` succeeding is modelled by `isWellFormedURL`: the
  input starts with an ASCII-alphabetic-led scheme (letters, digits,
  `+`, `-`, `.`) followed by `:`, the success domain of the WHATWG URL
  constructor on absolute inputs.
* The request body is modelled after `JSON.parse(event.body || '{}')`:
  a `null`/absent body and the empty string are falsy and default to
  `'{}'`; otherwise the body either fails to parse or yields an object
  whose `name`/`downloadLink` members are optional strings.  JSON
  values outside that shape are outside the model.
* CORS headers are identical constants on every response and are not
  modelled; `JSON.stringify` is modelled by structured response bodies.
  The outer `try`/`catch` returning 500 has no reachable trigger in
  the model (no modelled operation throws).
-/

namespace ClientApi

/-- JS `String.prototype.trim`: remove leading and trailing whitespace. -/
def jsTrim (s : String) : String :=
  ⟨((s.data.dropWhile Char.isWhitespace).reverse.dropWhile Char.isWhitespace).reverse⟩

/-- JS `String.prototype.replace(pat, repl)` with a string pattern:
replace only the first occurrence of `pat` (on character lists). -/
def replaceFirstChars (pat repl : List Char) : List Char → List Char
  | [] => if pat.isPrefixOf ([] : List Char) then repl else []
  | c :: cs =>
    if pat.isPrefixOf (c :: cs) then repl ++ (c :: cs).drop pat.length
    else c :: replaceFirstChars pat repl cs

/-- JS `String.prototype.split(sep)` for a one-character separator:
accumulates the current segment (reversed) and flushes it at each
separator; `"".split('/') = [""]`, `"a//b".split('/') = ["a","","b"]`. -/
def splitSegmentsAux (sep : Char) : List Char → List Char → List String
  | [], acc => [String.mk acc.reverse]
  | c :: cs, acc =>
    if c = sep then String.mk acc.reverse :: splitSegmentsAux sep cs []
    else splitSegmentsAux sep cs (c :: acc)

/-- `event.path.replace('/.netlify/functions/api/', '').split('/')`. -/
def pathSegments (p : String) : List String :=
  splitSegmentsAux '/' (replaceFirstChars "/.netlify/functions/api/".data [] p.data) []

/-- Success domain of `new URL(input)` for an absolute-URL string: a
nonempty scheme starting with an ASCII letter, continuing with ASCII
alphanumerics or `+`/`-`/`.`, terminated by `:`. -/
def schemeTail : List Char → Bool
  | [] => false
  | c :: cs =>
    if c = ':' then true
    else (c.isAlphanum || c = '+' || c = '-' || c = '.') && schemeTail cs

/-- `new URL(s)` does not throw (see `schemeTail`). -/
def isWellFormedURL (s : String) : Bool :=
  match s.data with
  | [] => false
  | c :: cs => c.isAlpha && schemeTail cs

/-- `interface ClientData { name: string; downloadLink: string; }` -/
structure ClientData where
  name : String
  downloadLink : String
deriving DecidableEq, Repr

/-- The `Map<string, ClientData>` inside `ClientStore`, as an
association list in insertion order. -/
abbrev Store := List (String × ClientData)

/-- A row of `ClientStore.getAll()`: `{ id, ...data }`. -/
structure ClientEntry where
  id : String
  name : String
  downloadLink : String
deriving DecidableEq, Repr

namespace ClientStore

/-- `ClientStore.get(id)`: `this.store.get(id)`. -/
def get : Store → String → Option ClientData
  | [], _ => none
  | (k, v) :: rest, id => if k = id then some v else get rest id

/-- `ClientStore.set(id, data)`: `this.store.set(id, data)` — update an
existing key in place (insertion order kept), append a fresh key. -/
def set : Store → String → ClientData → Store
  | [], id, data => [(id, data)]
  | (k, v) :: rest, id, data =>
    if k = id then (id, data) :: rest else (k, v) :: set rest id data

/-- `ClientStore.has(id)`: `this.store.has(id)`. -/
def has (m : Store) (id : String) : Bool :=
  (get m id).isSome

/-- `ClientStore.delete(id)` as its effect on the map: remove the entry
(the JS method additionally returns whether a deletion occurred, a
result the handler discards). -/
def delete : Store → String → Store
  | [], _ => []
  | (k, v) :: rest, id => if k = id then rest else (k, v) :: delete rest id

/-- `ClientStore.getAll()`: every entry `[id, data]` mapped to
`{ id, ...data }`, in the map's insertion order. -/
def getAll (m : Store) : List ClientEntry :=
  m.map fun kv => ⟨kv.1, kv.2.name, kv.2.downloadLink⟩

/-- Keys of a JS `Map` are pairwise distinct; every reachable store
satisfies this (see `handler_preserves_keysNodup`). -/
def KeysNodup (m : Store) : Prop := (m.map Prod.fst).Nodup

end ClientStore

/-- The request body, seen through `JSON.parse(event.body || '{}')`:
`noBody` is a `null` body, `emptyBody` the empty string (both falsy, so
the parse input defaults to `'{}'`); `malformed` a nonempty string that
`JSON.parse` rejects; `jsonObject n d` a string parsing to an object
whose `name` / `downloadLink` members are the given optional strings. -/
inductive BodyInput where
  | noBody
  | emptyBody
  | malformed
  | jsonObject (name : Option String) (downloadLink : Option String)
deriving DecidableEq, Repr

/-- `JSON.parse(event.body || '{}')` followed by
`const { name, downloadLink } = body`: `none` when `JSON.parse`
throws, otherwise the two optional fields (`'{}'` has neither). -/
def parseBody : BodyInput → Option (Option String × Option String)
  | .noBody => some (none, none)
  | .emptyBody => some (none, none)
  | .malformed => none
  | .jsonObject n d => some (n, d)

/-- The fields of the Netlify `event` the handler reads. -/
structure Event where
  httpMethod : String
  path : String
  body : BodyInput
deriving DecidableEq, Repr

/-- A response body: `JSON.stringify` of an error object, of a single
record `{name, downloadLink}`, or of the `getAll()` list. -/
inductive ResBody where
  | err (msg : String)
  | record (name downloadLink : String)
  | clientList (entries : List ClientEntry)
deriving DecidableEq, Repr

/-- The response fields the handler produces (the constant CORS headers
are omitted); `body = none` is a response with no body (204). -/
structure Response where
  statusCode : Nat
  body : Option ResBody
deriving DecidableEq, Repr

/-- The `POST /clients` branch of the handler, given the store and the
parsed body; returns the response and the store afterwards. -/
def postClientsBranch (store : Store) (b : BodyInput) : Response × Store :=
  match parseBody b with
  | none => (⟨400, some (.err "Invalid request body")⟩, store)
  | some (name, downloadLink) =>
    if jsTrim (name.getD "") = "" ∨ jsTrim (downloadLink.getD "") = "" then
      (⟨400, some (.err "Name and download link are required")⟩, store)
    else
      let trimmedName := jsTrim (name.getD "")
      let trimmedLink := jsTrim (downloadLink.getD "")
      if ClientStore.has store trimmedName then
        (⟨409, some (.err "Client with this name already exists")⟩, store)
      else if ¬ isWellFormedURL trimmedLink then
        (⟨400, some (.err "Invalid download link URL")⟩, store)
      else
        (⟨201, some (.record trimmedName trimmedLink)⟩,
          ClientStore.set store trimmedName ⟨trimmedName, trimmedLink⟩)

/-- The `PUT /clients/:clientId` branch: parse, field presence,
existence of `clientId`, URL validity, then overwrite at `clientId`. -/
def putClientBranch (store : Store) (clientId : String) (b : BodyInput) :
    Response × Store :=
  match parseBody b with
  | none => (⟨400, some (.err "Invalid request body")⟩, store)
  | some (name, downloadLink) =>
    if jsTrim (name.getD "") = "" ∨ jsTrim (downloadLink.getD "") = "" then
      (⟨400, some (.err "Name and download link are required")⟩, store)
    else if ¬ ClientStore.has store clientId then
      (⟨404, some (.err "Client not found")⟩, store)
    else
      let trimmedName := jsTrim (name.getD "")
      let trimmedLink := jsTrim (downloadLink.getD "")
      if ¬ isWellFormedURL trimmedLink then
        (⟨400, some (.err "Invalid download link URL")⟩, store)
      else
        (⟨200, some (.record trimmedName trimmedLink)⟩,
          ClientStore.set store clientId ⟨trimmedName, trimmedLink⟩)

/-- The `DELETE /clients/:clientId` branch. -/
def deleteClientBranch (store : Store) (clientId : String) :
    Response × Store :=
  if ¬ ClientStore.has store clientId then
    (⟨404, some (.err "Client not found")⟩, store)
  else
    (⟨204, none⟩, ClientStore.delete store clientId)

/-- The `GET /clients/:clientId` branch. -/
def getClientBranch (store : Store) (clientId : String) : Response × Store :=
  match ClientStore.get store clientId with
  | none => (⟨404, some (.err "Client not found")⟩, store)
  | some client => (⟨200, some (.record client.name client.downloadLink)⟩, store)

/-- The Netlify `handler`: OPTIONS preflight, then dispatch on method
and path segments exactly as the source's chain of `if`s; the second
component is the store after the request (the source mutates the
singleton in place). -/
def handler (store : Store) (event : Event) : Response × Store :=
  if event.httpMethod = "OPTIONS" then (⟨204, none⟩, store)
  else
    let segments := pathSegments event.path
    let method := event.httpMethod
    if method = "GET" ∧ segments.getD 0 "" = "clients" ∧ segments.getD 1 "" = "" then
      (⟨200, some (.clientList (ClientStore.getAll store))⟩, store)
    else if method = "GET" ∧ segments.getD 0 "" = "clients" ∧ segments.getD 1 "" ≠ "" then
      getClientBranch store (segments.getD 1 "")
    else if method = "POST" ∧ segments.getD 0 "" = "clients" then
      postClientsBranch store event.body
    else if method = "PUT" ∧ segments.getD 0 "" = "clients" ∧ segments.getD 1 "" ≠ "" then
      putClientBranch store (segments.getD 1 "") event.body
    else if method = "DELETE" ∧ segments.getD 0 "" = "clients" ∧ segments.getD 1 "" ≠ "" then
      deleteClientBranch store (segments.getD 1 "")
    else
      (⟨404, some (.err "Endpoint not found")⟩, store)

/-- The i-th path segment of a request, with the empty string standing
for an absent segment (both are falsy in the source's `segments[i]`
tests). -/
def seg (ev : Event) (i : Nat) : String := (pathSegments ev.path).getD i ""

/-- The (loose) conditions under which some route guard of the handler
fires: OPTIONS always; GET/POST on any path whose first segment is
`clients`; PUT/DELETE additionally need a nonempty second segment. -/
def routeMatches (ev : Event) : Prop :=
  ev.httpMethod = "OPTIONS" ∨
  (ev.httpMethod = "GET" ∧ seg ev 0 = "clients") ∨
  (ev.httpMethod = "POST" ∧ seg ev 0 = "clients") ∨
  (ev.httpMethod = "PUT" ∧ seg ev 0 = "clients" ∧ seg ev 1 ≠ "") ∨
  (ev.httpMethod = "DELETE" ∧ seg ev 0 = "clients" ∧ seg ev 1 ≠ "")

/-- One stored entry is well formed: nonempty key without surrounding
whitespace, name and link without surrounding whitespace, link a
well-formed URL. -/
def EntryWF (kv : String × ClientData) : Prop :=
  kv.1 ≠ "" ∧ jsTrim kv.1 = kv.1 ∧ jsTrim kv.2.name = kv.2.name ∧
  jsTrim kv.2.downloadLink = kv.2.downloadLink ∧
  isWellFormedURL kv.2.downloadLink = true

/-- Every stored entry is well formed. -/
def StoreWF (m : Store) : Prop := ∀ kv ∈ m, EntryWF kv

/-- The store after handling a sequence of requests, starting from the
empty registry (the process-wide map starts empty). -/
def runRequests (evs : List Event) : Store :=
  evs.foldl (fun s e => (handler s e).2) []

/-! ### Lemmas about `jsTrim` -/

theorem dropWhile_dropWhile (p : Char → Bool) (l : List Char) :
    (l.dropWhile p).dropWhile p = l.dropWhile p := by
  induction l with
  | nil => rfl
  | cons x xs ih =>
    by_cases h : p x
    · simp [List.dropWhile_cons, h, ih]
    · simp [List.dropWhile_cons, h]

theorem head?_dropWhile_false (p : Char → Bool) (l : List Char) :
    ∀ c, (l.dropWhile p).head? = some c → p c = false := by
  induction l with
  | nil => intro c hc; simp at hc
  | cons x xs ih =>
    intro c hc
    by_cases h : p x
    · exact ih c (by simpa [List.dropWhile_cons, h] using hc)
    · rw [List.dropWhile_cons, if_neg h] at hc
      simp only [List.head?_cons, Option.some_inj] at hc
      subst hc
      simpa using h

theorem dropWhile_eq_self_of_head (p : Char → Bool) (l : List Char)
    (h : ∀ c, l.head? = some c → p c = false) : l.dropWhile p = l := by
  cases l with
  | nil => rfl
  | cons x xs => simp [List.dropWhile_cons, h x rfl]

theorem getLast?_dropWhile (p : Char → Bool) (l : List Char)
    (h : l.dropWhile p ≠ []) : (l.dropWhile p).getLast? = l.getLast? := by
  induction l with
  | nil => simp at h
  | cons x xs ih =>
    by_cases hp : p x
    · have hxs : xs.dropWhile p ≠ [] := by
        simpa [List.dropWhile_cons, hp] using h
      have hxsne : xs ≠ [] := by
        intro hx; rw [hx] at hxs; simp at hxs
      rw [List.dropWhile_cons, if_pos hp, ih hxs]
      cases xs with
      | nil => exact absurd rfl hxsne
      | cons y ys => simp [List.getLast?_cons_cons]
    · simp [List.dropWhile_cons, hp]

theorem jsTrim_idem (s : String) : jsTrim (jsTrim s) = jsTrim s := by
  unfold jsTrim
  set p := Char.isWhitespace with hp
  set A := s.data.dropWhile p with hA
  set B := (A.reverse.dropWhile p).reverse with hB
  have hdata : (String.mk B).data = B := rfl
  rw [hdata]
  have h1 : B.dropWhile p = B := by
    apply dropWhile_eq_self_of_head
    intro c hc
    have hBne : B ≠ [] := by
      intro hB0; rw [hB0] at hc; simp at hc
    have hD : A.reverse.dropWhile p ≠ [] := by
      intro h0
      apply hBne
      rw [hB, h0]; rfl
    have hc1 : (A.reverse.dropWhile p).getLast? = some c := by
      rw [← List.head?_reverse]
      rw [hB] at hc
      exact hc
    have hc2 : A.reverse.getLast? = some c := by
      rw [← getLast?_dropWhile p A.reverse hD]; exact hc1
    have hc3 : A.head? = some c := by
      rw [← List.getLast?_reverse]; exact hc2
    exact head?_dropWhile_false p s.data c (by rw [← hA]; exact hc3)
  rw [h1]
  have h2 : B.reverse.dropWhile p = B.reverse := by
    rw [hB, List.reverse_reverse]
    exact dropWhile_dropWhile p A.reverse
  rw [h2, hB, List.reverse_reverse]

theorem jsTrim_empty : jsTrim "" = "" := rfl

/-! ### Lemmas about the store operations -/

namespace ClientStore

theorem get_set_self (m : Store) (k : String) (v : ClientData) :
    get (set m k v) k = some v := by
  induction m with
  | nil => simp [set, get]
  | cons kv rest ih =>
    obtain ⟨k0, v0⟩ := kv
    by_cases h : k0 = k
    · simp [set, get, h]
    · simp [set, get, h, ih]

theorem get_set_ne (m : Store) (k k' : String) (v : ClientData)
    (h : k' ≠ k) : get (set m k v) k' = get m k' := by
  have hne : ¬ k = k' := fun hh => h hh.symm
  induction m with
  | nil => simp [set, get, hne]
  | cons kv rest ih =>
    obtain ⟨k0, v0⟩ := kv
    by_cases hk : k0 = k
    · simp [set, get, hk, hne]
    · simp [set, get, hk, ih]

theorem get_delete_ne (m : Store) (k k' : String) (h : k' ≠ k) :
    get (delete m k) k' = get m k' := by
  have hne : ¬ k = k' := fun hh => h hh.symm
  induction m with
  | nil => simp [delete, get]
  | cons kv rest ih =>
    obtain ⟨k0, v0⟩ := kv
    by_cases hk : k0 = k
    · simp [delete, get, hk, hne]
    · simp [delete, get, hk, ih]

theorem get_eq_none_of_not_mem (m : Store) (k : String)
    (h : k ∉ m.map Prod.fst) : get m k = none := by
  induction m with
  | nil => rfl
  | cons kv rest ih =>
    obtain ⟨k0, v0⟩ := kv
    rw [List.map_cons] at h
    have h1 : ¬ k0 = k := fun hh => h (List.mem_cons.mpr (Or.inl hh.symm))
    have h2 : k ∉ rest.map Prod.fst :=
      fun hh => h (List.mem_cons.mpr (Or.inr hh))
    simp [get, h1, ih h2]

theorem get_delete_self (m : Store) (k : String) (h : KeysNodup m) :
    get (delete m k) k = none := by
  induction m with
  | nil => rfl
  | cons kv rest ih =>
    obtain ⟨k0, v0⟩ := kv
    unfold KeysNodup at h
    rw [List.map_cons, List.nodup_cons] at h
    by_cases hk : k0 = k
    · simp only [delete, if_pos hk]
      exact get_eq_none_of_not_mem rest k (by rw [← hk]; exact h.1)
    · simp only [delete, if_neg hk, get]
      exact ih h.2

theorem mem_set (m : Store) (k : String) (v : ClientData)
    (e : String × ClientData) (h : e ∈ set m k v) : e ∈ m ∨ e = (k, v) := by
  induction m with
  | nil =>
    simp only [set] at h
    rcases List.mem_cons.mp h with h1 | h1
    · exact Or.inr h1
    · simp at h1
  | cons kv rest ih =>
    obtain ⟨k0, v0⟩ := kv
    by_cases hk : k0 = k
    · simp only [set, if_pos hk] at h
      rcases List.mem_cons.mp h with h1 | h1
      · exact Or.inr h1
      · exact Or.inl (List.mem_cons_of_mem _ h1)
    · simp only [set, if_neg hk] at h
      rcases List.mem_cons.mp h with h1 | h1
      · exact Or.inl (List.mem_cons.mpr (Or.inl h1))
      · rcases ih h1 with h2 | h2
        · exact Or.inl (List.mem_cons_of_mem _ h2)
        · exact Or.inr h2

theorem delete_sublist (m : Store) (k : String) :
    List.Sublist (delete m k) m := by
  induction m with
  | nil => exact List.Sublist.refl _
  | cons kv rest ih =>
    obtain ⟨k0, v0⟩ := kv
    by_cases hk : k0 = k
    · simp only [delete, if_pos hk]
      exact List.sublist_cons_self _ rest
    · simp only [delete, if_neg hk]
      exact ih.cons₂ _

theorem mem_delete (m : Store) (k : String) (e : String × ClientData)
    (h : e ∈ delete m k) : e ∈ m :=
  (delete_sublist m k).mem h

theorem get_some_mem (m : Store) (k : String) (v : ClientData)
    (h : get m k = some v) : (k, v) ∈ m := by
  induction m with
  | nil => simp [get] at h
  | cons kv rest ih =>
    obtain ⟨k0, v0⟩ := kv
    by_cases hk : k0 = k
    · simp only [get, if_pos hk] at h
      have hv : v0 = v := Option.some_inj.mp h
      exact List.mem_cons.mpr (Or.inl (by rw [hk, hv]))
    · simp only [get, if_neg hk] at h
      exact List.mem_cons_of_mem _ (ih h)

theorem set_of_not_has (m : Store) (k : String) (v : ClientData)
    (h : has m k = false) : set m k v = m ++ [(k, v)] := by
  induction m with
  | nil => rfl
  | cons kv rest ih =>
    obtain ⟨k0, v0⟩ := kv
    rw [has] at h
    by_cases hk : k0 = k
    · exfalso
      simp only [get, if_pos hk] at h
      simp at h
    · simp only [get, if_neg hk] at h
      simp only [set, if_neg hk]
      rw [ih (by rw [has]; exact h)]
      rfl

theorem keys_set_of_has (m : Store) (k : String) (v : ClientData)
    (h : has m k = true) : (set m k v).map Prod.fst = m.map Prod.fst := by
  induction m with
  | nil => rw [has] at h; simp [get] at h
  | cons kv rest ih =>
    obtain ⟨k0, v0⟩ := kv
    by_cases hk : k0 = k
    · simp only [set, if_pos hk, List.map_cons]
      rw [hk]
    · rw [has] at h
      simp only [get, if_neg hk] at h
      simp only [set, if_neg hk, List.map_cons]
      rw [ih (by rw [has]; exact h)]

theorem not_mem_keys_of_not_has (m : Store) (k : String)
    (h : has m k = false) : k ∉ m.map Prod.fst := by
  induction m with
  | nil => simp
  | cons kv rest ih =>
    obtain ⟨k0, v0⟩ := kv
    rw [has] at h
    by_cases hk : k0 = k
    · simp only [get, if_pos hk] at h
      simp at h
    · simp only [get, if_neg hk] at h
      simp only [List.map_cons, List.mem_cons]
      rintro (h1 | h1)
      · exact hk h1.symm
      · exact ih (by rw [has]; exact h) h1

theorem keysNodup_set (m : Store) (k : String) (v : ClientData)
    (h : KeysNodup m) : KeysNodup (set m k v) := by
  by_cases hh : has m k
  · unfold KeysNodup
    rw [keys_set_of_has m k v hh]
    exact h
  · unfold KeysNodup
    rw [set_of_not_has m k v (by simpa using hh)]
    rw [List.map_append]
    simp only [List.map_cons, List.map_nil]
    rw [List.nodup_append]
    refine ⟨h, List.nodup_singleton k, ?_⟩
    intro a ha hb
    rw [List.mem_singleton] at hb
    subst hb
    exact not_mem_keys_of_not_has m a (by simpa using hh) ha

theorem keysNodup_delete (m : Store) (k : String) (h : KeysNodup m) :
    KeysNodup (delete m k) :=
  h.sublist ((delete_sublist m k).map Prod.fst)

end ClientStore

/-! ### Routing lemmas -/

theorem handler_route_list (store : Store) (ev : Event)
    (hm : ev.httpMethod = "GET") (h0 : seg ev 0 = "clients")
    (h1 : seg ev 1 = "") :
    handler store ev =
      (⟨200, some (.clientList (ClientStore.getAll store))⟩, store) := by
  unfold seg at h0 h1
  simp only [List.getD_eq_getElem?_getD] at h0 h1
  unfold handler
  rw [hm]
  simp [h0, h1]

theorem handler_route_get_one (store : Store) (ev : Event)
    (hm : ev.httpMethod = "GET") (h0 : seg ev 0 = "clients")
    (h1 : seg ev 1 ≠ "") :
    handler store ev = getClientBranch store (seg ev 1) := by
  unfold seg at h0 h1 ⊢
  simp only [List.getD_eq_getElem?_getD] at h0 h1 ⊢
  unfold handler
  rw [hm]
  simp [h0, h1]

theorem handler_route_post (store : Store) (ev : Event)
    (hm : ev.httpMethod = "POST") (h0 : seg ev 0 = "clients") :
    handler store ev = postClientsBranch store ev.body := by
  unfold seg at h0
  simp only [List.getD_eq_getElem?_getD] at h0
  unfold handler
  rw [hm]
  simp [h0]

theorem handler_route_put (store : Store) (ev : Event)
    (hm : ev.httpMethod = "PUT") (h0 : seg ev 0 = "clients")
    (h1 : seg ev 1 ≠ "") :
    handler store ev = putClientBranch store (seg ev 1) ev.body := by
  unfold seg at h0 h1 ⊢
  simp only [List.getD_eq_getElem?_getD] at h0 h1 ⊢
  unfold handler
  rw [hm]
  simp [h0, h1]

theorem handler_route_delete (store : Store) (ev : Event)
    (hm : ev.httpMethod = "DELETE") (h0 : seg ev 0 = "clients")
    (h1 : seg ev 1 ≠ "") :
    handler store ev = deleteClientBranch store (seg ev 1) := by
  unfold seg at h0 h1 ⊢
  simp only [List.getD_eq_getElem?_getD] at h0 h1 ⊢
  unfold handler
  rw [hm]
  simp [h0, h1]

theorem handler_route_none (store : Store) (ev : Event)
    (h : ¬ routeMatches ev) :
    handler store ev = (⟨404, some (.err "Endpoint not found")⟩, store) := by
  unfold routeMatches at h
  push_neg at h
  obtain ⟨hopt, hget, hpost, hput, hdel⟩ := h
  unfold seg at hget hpost hput hdel
  unfold handler
  rw [if_neg hopt]
  have hGET : ¬ (ev.httpMethod = "GET" ∧
      (pathSegments ev.path).getD 0 "" = "clients" ∧
      (pathSegments ev.path).getD 1 "" = "") := by
    rintro ⟨ha, hb, -⟩; exact hget ha hb
  have hGET2 : ¬ (ev.httpMethod = "GET" ∧
      (pathSegments ev.path).getD 0 "" = "clients" ∧
      (pathSegments ev.path).getD 1 "" ≠ "") := by
    rintro ⟨ha, hb, -⟩; exact hget ha hb
  have hPOST : ¬ (ev.httpMethod = "POST" ∧
      (pathSegments ev.path).getD 0 "" = "clients") := by
    rintro ⟨ha, hb⟩; exact hpost ha hb
  have hPUT : ¬ (ev.httpMethod = "PUT" ∧
      (pathSegments ev.path).getD 0 "" = "clients" ∧
      (pathSegments ev.path).getD 1 "" ≠ "") := by
    rintro ⟨ha, hb, hc⟩; exact hc (hput ha hb)
  have hDEL : ¬ (ev.httpMethod = "DELETE" ∧
      (pathSegments ev.path).getD 0 "" = "clients" ∧
      (pathSegments ev.path).getD 1 "" ≠ "") := by
    rintro ⟨ha, hb, hc⟩; exact hc (hdel ha hb)
  simp only [if_neg hGET, if_neg hGET2, if_neg hPOST, if_neg hPUT,
    if_neg hDEL]

/-! ### Case analysis on the branches -/

theorem snd_getClientBranch (store : Store) (id : String) :
    (getClientBranch store id).2 = store := by
  unfold getClientBranch
  split <;> rfl

theorem snd_postClientsBranch (store : Store) (b : BodyInput) :
    (postClientsBranch store b).2 = store ∨
    (postClientsBranch store b).1.statusCode = 201 := by
  unfold postClientsBranch
  split
  · left; rfl
  · split
    · left; rfl
    · dsimp only
      split
      · left; rfl
      · split
        · left; rfl
        · right; rfl

theorem snd_putClientBranch (store : Store) (id : String) (b : BodyInput) :
    (putClientBranch store id b).2 = store ∨
    (putClientBranch store id b).1.statusCode = 200 := by
  unfold putClientBranch
  split
  · left; rfl
  · split
    · left; rfl
    · split
      · left; rfl
      · dsimp only
        split
        · left; rfl
        · right; rfl

theorem snd_deleteClientBranch (store : Store) (id : String) :
    (deleteClientBranch store id).2 = store ∨
    (deleteClientBranch store id).1.statusCode = 204 := by
  unfold deleteClientBranch
  split
  · left; rfl
  · right; rfl

/-- Every request either leaves the store untouched or goes through one
of the three mutating branches. -/
theorem handler_dispatch (store : Store) (ev : Event) :
    (handler store ev).2 = store ∨
    handler store ev = postClientsBranch store ev.body ∨
    (∃ id, handler store ev = putClientBranch store id ev.body) ∨
    (∃ id, handler store ev = deleteClientBranch store id) := by
  unfold handler
  split
  · left; rfl
  · dsimp only
    split
    · left; rfl
    · split
      · left; exact snd_getClientBranch store _
      · split
        · right; left; rfl
        · split
          · right; right; left; exact ⟨_, rfl⟩
          · split
            · right; right; right; exact ⟨_, rfl⟩
            · left; rfl

/-! ### The store invariant (claim C10) -/

theorem storeWF_postClientsBranch (store : Store) (b : BodyInput)
    (h : StoreWF store) : StoreWF (postClientsBranch store b).2 := by
  unfold postClientsBranch
  split
  · exact h
  · split
    · exact h
    · rename_i hfields
      push_neg at hfields
      dsimp only
      split
      · exact h
      · split
        · exact h
        · rename_i hurl
          intro e he
          rcases ClientStore.mem_set _ _ _ _ he with h1 | h1
          · exact h e h1
          · subst h1
            refine ⟨hfields.1, jsTrim_idem _, jsTrim_idem _, jsTrim_idem _, ?_⟩
            simpa using hurl

theorem storeWF_putClientBranch (store : Store) (id : String)
    (b : BodyInput) (h : StoreWF store) :
    StoreWF (putClientBranch store id b).2 := by
  unfold putClientBranch
  split
  · exact h
  · split
    · exact h
    · split
      · exact h
      · rename_i hhas
        dsimp only
        split
        · exact h
        · rename_i hurl
          have hhas' : ClientStore.has store id = true := by
            by_contra hc
            exact hhas (by simpa using hc)
          obtain ⟨v, hv⟩ := Option.isSome_iff_exists.mp hhas'
          have hmem := ClientStore.get_some_mem store id v hv
          have hid := h _ hmem
          intro e he
          rcases ClientStore.mem_set _ _ _ _ he with h1 | h1
          · exact h e h1
          · subst h1
            refine ⟨hid.1, hid.2.1, jsTrim_idem _, jsTrim_idem _, ?_⟩
            simpa using hurl

theorem storeWF_deleteClientBranch (store : Store) (id : String)
    (h : StoreWF store) : StoreWF (deleteClientBranch store id).2 := by
  unfold deleteClientBranch
  split
  · exact h
  · intro e he
    exact h e (ClientStore.mem_delete _ _ _ he)

theorem handler_preserves_storeWF (store : Store) (ev : Event)
    (h : StoreWF store) : StoreWF (handler store ev).2 := by
  rcases handler_dispatch store ev with hd | hd | ⟨id, hd⟩ | ⟨id, hd⟩
  · rw [hd]; exact h
  · rw [hd]; exact storeWF_postClientsBranch store ev.body h
  · rw [hd]; exact storeWF_putClientBranch store id ev.body h
  · rw [hd]; exact storeWF_deleteClientBranch store id h

theorem keysNodup_postClientsBranch (store : Store) (b : BodyInput)
    (h : ClientStore.KeysNodup store) :
    ClientStore.KeysNodup (postClientsBranch store b).2 := by
  unfold postClientsBranch
  split
  · exact h
  · split
    · exact h
    · dsimp only
      split
      · exact h
      · split
        · exact h
        · exact ClientStore.keysNodup_set _ _ _ h

theorem keysNodup_putClientBranch (store : Store) (id : String)
    (b : BodyInput) (h : ClientStore.KeysNodup store) :
    ClientStore.KeysNodup (putClientBranch store id b).2 := by
  unfold putClientBranch
  split
  · exact h
  · split
    · exact h
    · split
      · exact h
      · dsimp only
        split
        · exact h
        · exact ClientStore.keysNodup_set _ _ _ h

theorem keysNodup_deleteClientBranch (store : Store) (id : String)
    (h : ClientStore.KeysNodup store) :
    ClientStore.KeysNodup (deleteClientBranch store id).2 := by
  unfold deleteClientBranch
  split
  · exact h
  · exact ClientStore.keysNodup_delete _ _ h

theorem handler_preserves_keysNodup (store : Store) (ev : Event)
    (h : ClientStore.KeysNodup store) :
    ClientStore.KeysNodup (handler store ev).2 := by
  rcases handler_dispatch store ev with hd | hd | ⟨id, hd⟩ | ⟨id, hd⟩
  · rw [hd]; exact h
  · rw [hd]; exact keysNodup_postClientsBranch store ev.body h
  · rw [hd]; exact keysNodup_putClientBranch store id ev.body h
  · rw [hd]; exact keysNodup_deleteClientBranch store id h

theorem runRequests_from (s : Store) (evs : List Event)
    (h : StoreWF s) : StoreWF (evs.foldl (fun s e => (handler s e).2) s) := by
  induction evs generalizing s with
  | nil => exact h
  | cons e es ih =>
    exact ih _ (handler_preserves_storeWF s e h)

/-! ### The claims -/

/-- C1: for every POST request whose first path segment is `clients`,
the handler applies its checks in exactly this order and returns the
first failing one: body fails to parse as JSON → 400; trimmed name or
trimmed downloadLink empty or absent → 400; trimmed name already a key
in the registry → 409 (even when the link is also invalid, showing the
collision check precedes the URL check); trimmed downloadLink not a
well-formed absolute URL → 400; otherwise it stores the trimmed pair
under the trimmed name and returns 201 with the trimmed pair. -/
theorem post_create_check_order (store : Store) (ev : Event)
    (hm : ev.httpMethod = "POST") (h0 : seg ev 0 = "clients") :
    (parseBody ev.body = none →
      handler store ev = (⟨400, some (.err "Invalid request body")⟩, store)) ∧
    (∀ n d, parseBody ev.body = some (n, d) →
      (jsTrim (n.getD "") = "" ∨ jsTrim (d.getD "") = "") →
      handler store ev =
        (⟨400, some (.err "Name and download link are required")⟩, store)) ∧
    (∀ n d, parseBody ev.body = some (n, d) →
      jsTrim (n.getD "") ≠ "" → jsTrim (d.getD "") ≠ "" →
      ClientStore.has store (jsTrim (n.getD "")) = true →
      handler store ev =
        (⟨409, some (.err "Client with this name already exists")⟩, store)) ∧
    (∀ n d, parseBody ev.body = some (n, d) →
      jsTrim (n.getD "") ≠ "" → jsTrim (d.getD "") ≠ "" →
      ClientStore.has store (jsTrim (n.getD "")) = false →
      isWellFormedURL (jsTrim (d.getD "")) = false →
      handler store ev =
        (⟨400, some (.err "Invalid download link URL")⟩, store)) ∧
    (∀ n d, parseBody ev.body = some (n, d) →
      jsTrim (n.getD "") ≠ "" → jsTrim (d.getD "") ≠ "" →
      ClientStore.has store (jsTrim (n.getD "")) = false →
      isWellFormedURL (jsTrim (d.getD "")) = true →
      handler store ev =
        (⟨201, some (.record (jsTrim (n.getD "")) (jsTrim (d.getD "")))⟩,
          ClientStore.set store (jsTrim (n.getD ""))
            ⟨jsTrim (n.getD ""), jsTrim (d.getD "")⟩)) := by
  rw [handler_route_post store ev hm h0]
  refine ⟨?_, ?_, ?_, ?_, ?_⟩
  · intro hb
    simp [postClientsBranch, hb]
  · intro n d hb hempty
    simp only [postClientsBranch, hb]
    rw [if_pos hempty]
  · intro n d hb hn hd hhas
    simp [postClientsBranch, hb, hn, hd, hhas]
  · intro n d hb hn hd hfresh hurl
    simp [postClientsBranch, hb, hn, hd, hfresh, hurl]
  · intro n d hb hn hd hfresh hurl
    simp [postClientsBranch, hb, hn, hd, hfresh, hurl]

/-- C1 witness: with `Acme` already registered, a POST for `Acme` with
an invalid link yields 409 (not 400), the collision check coming before
the URL check, and the store is unchanged. -/
theorem post_create_check_order_witness :
    handler [("Acme", ⟨"Acme", "https://x.test/a.zip"⟩)]
        ⟨"POST", "/.netlify/functions/api/clients",
          .jsonObject (some "Acme") (some "not-a-url")⟩ =
      (⟨409, some (.err "Client with this name already exists")⟩,
        [("Acme", ⟨"Acme", "https://x.test/a.zip"⟩)]) :=
  (post_create_check_order _ _ rfl (by decide)).2.2.1
    (some "Acme") (some "not-a-url") rfl (by decide) (by decide) (by decide)

/-- C2: for every PUT request to `/clients/{id}`, the handler applies
its checks in exactly this order and returns the first failing one:
body fails to parse → 400; trimmed name or trimmed downloadLink empty
or absent → 400; `id` not a key → 404 with the registry unchanged
(even when the link is also invalid, showing the existence check
precedes the URL check); trimmed downloadLink not a well-formed URL →
400; otherwise it overwrites the record at `id` with the trimmed pair
and returns 200 with it. -/
theorem put_update_check_order (store : Store) (ev : Event)
    (hm : ev.httpMethod = "PUT") (h0 : seg ev 0 = "clients")
    (h1 : seg ev 1 ≠ "") :
    (parseBody ev.body = none →
      handler store ev = (⟨400, some (.err "Invalid request body")⟩, store)) ∧
    (∀ n d, parseBody ev.body = some (n, d) →
      (jsTrim (n.getD "") = "" ∨ jsTrim (d.getD "") = "") →
      handler store ev =
        (⟨400, some (.err "Name and download link are required")⟩, store)) ∧
    (∀ n d, parseBody ev.body = some (n, d) →
      jsTrim (n.getD "") ≠ "" → jsTrim (d.getD "") ≠ "" →
      ClientStore.has store (seg ev 1) = false →
      handler store ev =
        (⟨404, some (.err "Client not found")⟩, store)) ∧
    (∀ n d, parseBody ev.body = some (n, d) →
      jsTrim (n.getD "") ≠ "" → jsTrim (d.getD "") ≠ "" →
      ClientStore.has store (seg ev 1) = true →
      isWellFormedURL (jsTrim (d.getD "")) = false →
      handler store ev =
        (⟨400, some (.err "Invalid download link URL")⟩, store)) ∧
    (∀ n d, parseBody ev.body = some (n, d) →
      jsTrim (n.getD "") ≠ "" → jsTrim (d.getD "") ≠ "" →
      ClientStore.has store (seg ev 1) = true →
      isWellFormedURL (jsTrim (d.getD "")) = true →
      handler store ev =
        (⟨200, some (.record (jsTrim (n.getD "")) (jsTrim (d.getD "")))⟩,
          ClientStore.set store (seg ev 1)
            ⟨jsTrim (n.getD ""), jsTrim (d.getD "")⟩)) := by
  rw [handler_route_put store ev hm h0 h1]
  refine ⟨?_, ?_, ?_, ?_, ?_⟩
  · intro hb
    simp [putClientBranch, hb]
  · intro n d hb hempty
    simp only [putClientBranch, hb]
    rw [if_pos hempty]
  · intro n d hb hn hd hhas
    simp [putClientBranch, hb, hn, hd, hhas]
  · intro n d hb hn hd hhas hurl
    simp [putClientBranch, hb, hn, hd, hhas, hurl]
  · intro n d hb hn hd hhas hurl
    simp [putClientBranch, hb, hn, hd, hhas, hurl]

/-- C2 witness: a PUT to a key that is absent, with a body whose link is
also invalid, yields 404 (not 400) and an unchanged store: the
existence check comes before the URL check. -/
theorem put_update_check_order_witness :
    handler [("Acme", ⟨"Acme", "https://x.test/a.zip"⟩)]
        ⟨"PUT", "/.netlify/functions/api/clients/Ghost",
          .jsonObject (some "Ghost") (some "not-a-url")⟩ =
      (⟨404, some (.err "Client not found")⟩,
        [("Acme", ⟨"Acme", "https://x.test/a.zip"⟩)]) :=
  (put_update_check_order _ _ rfl (by decide) (by decide)).2.2.1
    (some "Ghost") (some "not-a-url") rfl (by decide) (by decide) (by decide)

/-- C3: a successful update leaves the key set unchanged and modifies
only the record at the targeted key: after a PUT to `/clients/{k}` with
a new trimmed name and valid trimmed link, the store's keys are what
they were, the record is still stored under `k` (a GET on `k` returns
200 with the new name and link), every other key's record is untouched
(so nothing appears under the new name unless it was there before). -/
theorem put_update_frame (store : Store) (putEv getEv : Event)
    (k n d : String)
    (hm : putEv.httpMethod = "PUT") (h0 : seg putEv 0 = "clients")
    (h1 : seg putEv 1 = k) (hk : k ≠ "")
    (hb : putEv.body = .jsonObject (some n) (some d))
    (hn : jsTrim n ≠ "") (hd : jsTrim d ≠ "")
    (hhas : ClientStore.has store k = true)
    (hurl : isWellFormedURL (jsTrim d) = true)
    (hm2 : getEv.httpMethod = "GET") (g0 : seg getEv 0 = "clients")
    (g1 : seg getEv 1 = k) :
    handler store putEv =
      (⟨200, some (.record (jsTrim n) (jsTrim d))⟩,
        ClientStore.set store k ⟨jsTrim n, jsTrim d⟩) ∧
    (ClientStore.set store k ⟨jsTrim n, jsTrim d⟩).map Prod.fst =
      store.map Prod.fst ∧
    ClientStore.get (ClientStore.set store k ⟨jsTrim n, jsTrim d⟩) k =
      some ⟨jsTrim n, jsTrim d⟩ ∧
    (∀ k', k' ≠ k →
      ClientStore.get (ClientStore.set store k ⟨jsTrim n, jsTrim d⟩) k' =
        ClientStore.get store k') ∧
    handler (ClientStore.set store k ⟨jsTrim n, jsTrim d⟩) getEv =
      (⟨200, some (.record (jsTrim n) (jsTrim d))⟩,
        ClientStore.set store k ⟨jsTrim n, jsTrim d⟩) := by
  refine ⟨?_, ?_, ?_, ?_, ?_⟩
  · rw [handler_route_put store putEv hm h0 (by rw [h1]; exact hk), h1]
    simp [putClientBranch, parseBody, hb, hn, hd, hhas, hurl]
  · exact ClientStore.keys_set_of_has store k _ hhas
  · exact ClientStore.get_set_self store k _
  · intro k' hne
    exact ClientStore.get_set_ne store k k' _ hne
  · rw [handler_route_get_one _ getEv hm2 g0 (by rw [g1]; exact hk), g1]
    unfold getClientBranch
    rw [ClientStore.get_set_self store k _]

/-- C3 witness: updating `Acme` to name `Acme Corp` keeps the record
under the old key `Acme`, leaves the other entry untouched, and a GET
on `Acme` returns the new values. -/
theorem put_update_frame_witness :
    handler
        [("Acme", ⟨"Acme", "https://x.test/a.zip"⟩),
          ("Other", ⟨"Other", "https://o.test/o.zip"⟩)]
        ⟨"PUT", "/.netlify/functions/api/clients/Acme",
          .jsonObject (some "Acme Corp") (some "https://x.test/b.zip")⟩ =
      (⟨200, some (.record "Acme Corp" "https://x.test/b.zip")⟩,
        [("Acme", ⟨"Acme Corp", "https://x.test/b.zip"⟩),
          ("Other", ⟨"Other", "https://o.test/o.zip"⟩)]) ∧
    ClientStore.get
        [("Acme", ⟨"Acme Corp", "https://x.test/b.zip"⟩),
          ("Other", ⟨"Other", "https://o.test/o.zip"⟩)] "Other" =
      some ⟨"Other", "https://o.test/o.zip"⟩ ∧
    handler
        [("Acme", ⟨"Acme Corp", "https://x.test/b.zip"⟩),
          ("Other", ⟨"Other", "https://o.test/o.zip"⟩)]
        ⟨"GET", "/.netlify/functions/api/clients/Acme", .noBody⟩ =
      (⟨200, some (.record "Acme Corp" "https://x.test/b.zip")⟩,
        [("Acme", ⟨"Acme Corp", "https://x.test/b.zip"⟩),
          ("Other", ⟨"Other", "https://o.test/o.zip"⟩)]) := by
  have h := put_update_frame
    [("Acme", ⟨"Acme", "https://x.test/a.zip"⟩),
      ("Other", ⟨"Other", "https://o.test/o.zip"⟩)]
    ⟨"PUT", "/.netlify/functions/api/clients/Acme",
      .jsonObject (some "Acme Corp") (some "https://x.test/b.zip")⟩
    ⟨"GET", "/.netlify/functions/api/clients/Acme", .noBody⟩
    "Acme" "Acme Corp" "https://x.test/b.zip"
    rfl (by decide) (by decide) (by decide) rfl (by decide) (by decide)
    (by decide) (by decide) rfl (by decide) (by decide)
  exact ⟨h.1, h.2.2.2.1 "Other" (by decide), h.2.2.2.2⟩

/-- C4: round trip create-then-get — when both trimmed fields are
nonempty, the trimmed name is fresh and the trimmed link is a
well-formed URL, a POST of that body returns 201 and a subsequent GET
on the trimmed name returns 200 with exactly the trimmed name and
trimmed link. -/
theorem create_get_roundtrip (store : Store) (postEv getEv : Event)
    (n d : String)
    (hmp : postEv.httpMethod = "POST") (hp0 : seg postEv 0 = "clients")
    (hb : postEv.body = .jsonObject (some n) (some d))
    (hn : jsTrim n ≠ "") (hd : jsTrim d ≠ "")
    (hfresh : ClientStore.has store (jsTrim n) = false)
    (hurl : isWellFormedURL (jsTrim d) = true)
    (hmg : getEv.httpMethod = "GET") (hg0 : seg getEv 0 = "clients")
    (hg1 : seg getEv 1 = jsTrim n) :
    handler store postEv =
      (⟨201, some (.record (jsTrim n) (jsTrim d))⟩,
        ClientStore.set store (jsTrim n) ⟨jsTrim n, jsTrim d⟩) ∧
    handler (ClientStore.set store (jsTrim n) ⟨jsTrim n, jsTrim d⟩) getEv =
      (⟨200, some (.record (jsTrim n) (jsTrim d))⟩,
        ClientStore.set store (jsTrim n) ⟨jsTrim n, jsTrim d⟩) := by
  constructor
  · rw [handler_route_post store postEv hmp hp0]
    simp [postClientsBranch, parseBody, hb, hn, hd, hfresh, hurl]
  · rw [handler_route_get_one _ getEv hmg hg0 (by rw [hg1]; exact hn), hg1]
    unfold getClientBranch
    rw [ClientStore.get_set_self store (jsTrim n) _]

/-- C4 witness: creating `Acme` (submitted with surrounding whitespace)
into the empty registry and reading it back returns the trimmed
name and link. -/
theorem create_get_roundtrip_witness :
    handler []
        ⟨"POST", "/.netlify/functions/api/clients",
          .jsonObject (some " Acme ") (some " https://x.test/a.zip ")⟩ =
      (⟨201, some (.record "Acme" "https://x.test/a.zip")⟩,
        [("Acme", ⟨"Acme", "https://x.test/a.zip"⟩)]) ∧
    handler [("Acme", ⟨"Acme", "https://x.test/a.zip"⟩)]
        ⟨"GET", "/.netlify/functions/api/clients/Acme", .noBody⟩ =
      (⟨200, some (.record "Acme" "https://x.test/a.zip")⟩,
        [("Acme", ⟨"Acme", "https://x.test/a.zip"⟩)]) := by
  have h := create_get_roundtrip []
    ⟨"POST", "/.netlify/functions/api/clients",
      .jsonObject (some " Acme ") (some " https://x.test/a.zip ")⟩
    ⟨"GET", "/.netlify/functions/api/clients/Acme", .noBody⟩
    " Acme " " https://x.test/a.zip "
    rfl (by decide) rfl (by decide) (by decide) (by decide) (by decide)
    rfl (by decide) (by decide)
  exact ⟨h.1, h.2⟩

/-- C5: failed requests leave the registry unchanged — any response
whose status is none of 200/201/204 comes with the untouched store; in
particular a POST whose trimmed link is not a well-formed URL (the
other checks passing) returns 400 and stores nothing. -/
theorem failed_request_leaves_store (store : Store) (ev : Event) :
    (∀ r s', handler store ev = (r, s') →
      r.statusCode ≠ 200 → r.statusCode ≠ 201 → r.statusCode ≠ 204 →
      s' = store) ∧
    (∀ n d, ev.httpMethod = "POST" → seg ev 0 = "clients" →
      ev.body = .jsonObject (some n) (some d) →
      jsTrim n ≠ "" → jsTrim d ≠ "" →
      ClientStore.has store (jsTrim n) = false →
      isWellFormedURL (jsTrim d) = false →
      handler store ev =
        (⟨400, some (.err "Invalid download link URL")⟩, store)) := by
  constructor
  · intro r s' h h200 h201 h204
    rcases handler_dispatch store ev with hd | hd | ⟨id, hd⟩ | ⟨id, hd⟩
    · rw [h] at hd; exact hd
    · rcases snd_postClientsBranch store ev.body with h2 | h2
      · rw [← hd, h] at h2; exact h2
      · rw [← hd, h] at h2; exact absurd h2 h201
    · rcases snd_putClientBranch store id ev.body with h2 | h2
      · rw [← hd, h] at h2; exact h2
      · rw [← hd, h] at h2; exact absurd h2 h200
    · rcases snd_deleteClientBranch store id with h2 | h2
      · rw [← hd, h] at h2; exact h2
      · rw [← hd, h] at h2; exact absurd h2 h204
  · intro n d hm h0 hb hn hd hfresh hurl
    rw [handler_route_post store ev hm h0]
    simp [postClientsBranch, parseBody, hb, hn, hd, hfresh, hurl]

/-- C5 witness: a POST with `downloadLink = "not-a-url"` and a fresh
name returns 400 and the registry stays empty. -/
theorem failed_request_leaves_store_witness :
    handler []
        ⟨"POST", "/.netlify/functions/api/clients",
          .jsonObject (some "Acme") (some "not-a-url")⟩ =
      (⟨400, some (.err "Invalid download link URL")⟩, []) :=
  (failed_request_leaves_store []
      ⟨"POST", "/.netlify/functions/api/clients",
        .jsonObject (some "Acme") (some "not-a-url")⟩).2
    "Acme" "not-a-url" rfl (by decide) rfl (by decide) (by decide)
    (by decide) (by decide)

/-- C6: deleting a present key returns 204 with no body and removes the
entry: a subsequent GET on the key returns 404, and a second DELETE of
the same key also returns 404 and changes nothing.  (The `KeysNodup`
hypothesis states that the store has distinct keys, which every store
reachable through the handler satisfies — a JS `Map` cannot hold a key
twice; see `handler_preserves_keysNodup`.) -/
theorem delete_then_get_and_redelete (store : Store)
    (delEv getEv : Event) (k : String)
    (hnodup : ClientStore.KeysNodup store)
    (hk : k ≠ "") (hhas : ClientStore.has store k = true)
    (hmd : delEv.httpMethod = "DELETE") (hd0 : seg delEv 0 = "clients")
    (hd1 : seg delEv 1 = k)
    (hmg : getEv.httpMethod = "GET") (hg0 : seg getEv 0 = "clients")
    (hg1 : seg getEv 1 = k) :
    handler store delEv = (⟨204, none⟩, ClientStore.delete store k) ∧
    handler (ClientStore.delete store k) getEv =
      (⟨404, some (.err "Client not found")⟩, ClientStore.delete store k) ∧
    handler (ClientStore.delete store k) delEv =
      (⟨404, some (.err "Client not found")⟩, ClientStore.delete store k) := by
  have hgone : ClientStore.get (ClientStore.delete store k) k = none :=
    ClientStore.get_delete_self store k hnodup
  refine ⟨?_, ?_, ?_⟩
  · rw [handler_route_delete store delEv hmd hd0 (by rw [hd1]; exact hk), hd1]
    unfold deleteClientBranch
    rw [if_neg (by rw [hhas]; exact fun hc => hc rfl)]
  · rw [handler_route_get_one _ getEv hmg hg0 (by rw [hg1]; exact hk), hg1]
    unfold getClientBranch
    rw [hgone]
  · rw [handler_route_delete _ delEv hmd hd0 (by rw [hd1]; exact hk), hd1]
    unfold deleteClientBranch
    rw [if_pos (by rw [ClientStore.has, hgone]; exact fun hc => by simp at hc)]

/-- C6 witness: deleting `Acme` from a one-entry registry yields 204 and
the empty store; the follow-up GET and the repeated DELETE both yield
404 on the now-empty store. -/
theorem delete_then_get_and_redelete_witness :
    handler [("Acme", ⟨"Acme", "https://x.test/a.zip"⟩)]
        ⟨"DELETE", "/.netlify/functions/api/clients/Acme", .noBody⟩ =
      (⟨204, none⟩, []) ∧
    handler [] ⟨"GET", "/.netlify/functions/api/clients/Acme", .noBody⟩ =
      (⟨404, some (.err "Client not found")⟩, []) ∧
    handler [] ⟨"DELETE", "/.netlify/functions/api/clients/Acme", .noBody⟩ =
      (⟨404, some (.err "Client not found")⟩, []) :=
  delete_then_get_and_redelete
    [("Acme", ⟨"Acme", "https://x.test/a.zip"⟩)]
    ⟨"DELETE", "/.netlify/functions/api/clients/Acme", .noBody⟩
    ⟨"GET", "/.netlify/functions/api/clients/Acme", .noBody⟩
    "Acme" (by unfold ClientStore.KeysNodup; decide) (by decide) (by decide)
    rfl (by decide) (by decide) rfl (by decide) (by decide)

/-- C7 counterexample: the claim says a POST to `/clients/{id}` and a
GET to `/clients/{id}/extra` are not routed to any registry operation
and yield 404 "Endpoint not found"; in fact the POST guard checks only
the first segment, so `POST /clients/someid` is handled as create (201),
and the GET-one guard ignores segments past the second, so
`GET /clients/Acme/extra` is handled as get-one (200). -/
theorem post_with_id_routes_to_create :
    handler []
        ⟨"POST", "/.netlify/functions/api/clients/someid",
          .jsonObject (some "Acme") (some "https://x.test/a.zip")⟩ =
      (⟨201, some (.record "Acme" "https://x.test/a.zip")⟩,
        [("Acme", ⟨"Acme", "https://x.test/a.zip"⟩)]) ∧
    handler [("Acme", ⟨"Acme", "https://x.test/a.zip"⟩)]
        ⟨"GET", "/.netlify/functions/api/clients/Acme/extra", .noBody⟩ =
      (⟨200, some (.record "Acme" "https://x.test/a.zip")⟩,
        [("Acme", ⟨"Acme", "https://x.test/a.zip"⟩)]) ∧
    (⟨201, some (.record "Acme" "https://x.test/a.zip")⟩ : Response) ≠
      ⟨404, some (.err "Endpoint not found")⟩ ∧
    (⟨200, some (.record "Acme" "https://x.test/a.zip")⟩ : Response) ≠
      ⟨404, some (.err "Endpoint not found")⟩ := by
  refine ⟨by decide, by decide, by decide, by decide⟩

/-- C7 (amended): every request matching none of the handler's route
guards yields 404 with body `{"error": "Endpoint not found"}` and an
unchanged registry — but the guards are looser than the five listed
path shapes: POST requires only that the first segment be `clients`
(extra segments are ignored, so `POST /clients/{id}` is treated as
create), and the GET/PUT/DELETE id-routes ignore segments beyond the
second (so `GET /clients/{id}/extra` is treated as
`GET /clients/{id}`). -/
theorem unrouted_request_not_found (store : Store) (ev : Event)
    (h : ¬ routeMatches ev) :
    handler store ev = (⟨404, some (.err "Endpoint not found")⟩, store) :=
  handler_route_none store ev h

/-- C7 witness: a PATCH request matches no guard and gets the fallback
404. -/
theorem unrouted_request_not_found_witness :
    handler [("Acme", ⟨"Acme", "https://x.test/a.zip"⟩)]
        ⟨"PATCH", "/.netlify/functions/api/clients/Acme", .noBody⟩ =
      (⟨404, some (.err "Endpoint not found")⟩,
        [("Acme", ⟨"Acme", "https://x.test/a.zip"⟩)]) :=
  unrouted_request_not_found
    [("Acme", ⟨"Acme", "https://x.test/a.zip"⟩)]
    ⟨"PATCH", "/.netlify/functions/api/clients/Acme", .noBody⟩
    (by unfold routeMatches seg; decide)

/-- C8: GET `/clients` returns 200 with every stored record exactly
once, annotated with its key as `id`, in the insertion order of the
underlying store; creating A then B into an empty registry and listing
returns A's row before B's. -/
theorem list_clients_insertion_order (store : Store) (ev : Event)
    (hm : ev.httpMethod = "GET") (h0 : seg ev 0 = "clients")
    (h1 : seg ev 1 = "") :
    handler store ev =
      (⟨200, some (.clientList
          (store.map fun kv => ⟨kv.1, kv.2.name, kv.2.downloadLink⟩))⟩,
        store) ∧
    handler
        (handler
          (handler []
            ⟨"POST", "/.netlify/functions/api/clients",
              .jsonObject (some "Acme") (some "https://x.test/a.zip")⟩).2
          ⟨"POST", "/.netlify/functions/api/clients",
            .jsonObject (some "Beta") (some "https://x.test/b.zip")⟩).2
        ⟨"GET", "/.netlify/functions/api/clients", .noBody⟩ =
      (⟨200, some (.clientList
          [⟨"Acme", "Acme", "https://x.test/a.zip"⟩,
            ⟨"Beta", "Beta", "https://x.test/b.zip"⟩])⟩,
        [("Acme", ⟨"Acme", "https://x.test/a.zip"⟩),
          ("Beta", ⟨"Beta", "https://x.test/b.zip"⟩)]) := by
  constructor
  · rw [handler_route_list store ev hm h0 h1]
    rfl
  · decide

/-- C8 witness: listing a concrete two-entry store returns its rows in
store order. -/
theorem list_clients_insertion_order_witness :
    handler
        [("Acme", ⟨"Acme", "https://x.test/a.zip"⟩),
          ("Beta", ⟨"Beta", "https://x.test/b.zip"⟩)]
        ⟨"GET", "/.netlify/functions/api/clients", .noBody⟩ =
      (⟨200, some (.clientList
          [⟨"Acme", "Acme", "https://x.test/a.zip"⟩,
            ⟨"Beta", "Beta", "https://x.test/b.zip"⟩])⟩,
        [("Acme", ⟨"Acme", "https://x.test/a.zip"⟩),
          ("Beta", ⟨"Beta", "https://x.test/b.zip"⟩)]) :=
  (list_clients_insertion_order
      [("Acme", ⟨"Acme", "https://x.test/a.zip"⟩),
        ("Beta", ⟨"Beta", "https://x.test/b.zip"⟩)]
      ⟨"GET", "/.netlify/functions/api/clients", .noBody⟩
      rfl (by decide) (by decide)).1

/-- C9: a POST or PUT with an absent or empty request body is not
rejected as malformed JSON — `event.body || '{}'` defaults it to
`'{}'`, which parses to an object missing both fields — so the response
is the 400 missing-fields error, never the 400 "Invalid request body"
error. -/
theorem empty_body_gives_missing_fields (store : Store) (ev : Event)
    (hb : ev.body = .noBody ∨ ev.body = .emptyBody) :
    (ev.httpMethod = "POST" → seg ev 0 = "clients" →
      handler store ev =
        (⟨400, some (.err "Name and download link are required")⟩, store)) ∧
    (ev.httpMethod = "PUT" → seg ev 0 = "clients" → seg ev 1 ≠ "" →
      handler store ev =
        (⟨400, some (.err "Name and download link are required")⟩, store)) := by
  have hp : parseBody ev.body = some (none, none) := by
    rcases hb with hb | hb <;> rw [hb] <;> rfl
  constructor
  · intro hm h0
    rw [handler_route_post store ev hm h0]
    simp [postClientsBranch, hp, jsTrim_empty]
  · intro hm h0 h1
    rw [handler_route_put store ev hm h0 h1]
    simp [putClientBranch, hp, jsTrim_empty]

/-- C9 witness: a POST with a `null` body yields the missing-fields 400,
not the invalid-body 400. -/
theorem empty_body_gives_missing_fields_witness :
    handler [] ⟨"POST", "/.netlify/functions/api/clients", .noBody⟩ =
      (⟨400, some (.err "Name and download link are required")⟩, []) :=
  (empty_body_gives_missing_fields []
      ⟨"POST", "/.netlify/functions/api/clients", .noBody⟩
      (Or.inl rfl)).1 rfl (by decide)

/-- C10: starting from the empty registry, after any sequence of
handled requests every stored entry has a nonempty key with no leading
or trailing whitespace, a name and downloadLink with no leading or
trailing whitespace, and a downloadLink that is a well-formed URL; and
every single operation preserves this invariant. -/
theorem registry_entries_always_wf :
    (∀ evs, StoreWF (runRequests evs)) ∧
    (∀ store ev, StoreWF store → StoreWF (handler store ev).2) := by
  constructor
  · intro evs
    unfold runRequests
    exact runRequests_from [] evs (fun kv h => absurd h (List.not_mem_nil kv))
  · exact handler_preserves_storeWF

/-- C10 witness: one preservation step on a concrete well-formed store,
through a POST that stores a new trimmed entry. -/
theorem registry_entries_always_wf_witness :
    StoreWF (handler [("Acme", ⟨"Acme", "https://x.test/a.zip"⟩)]
        ⟨"POST", "/.netlify/functions/api/clients",
          .jsonObject (some " Beta ") (some " https://x.test/b.zip ")⟩).2 :=
  registry_entries_always_wf.2
    [("Acme", ⟨"Acme", "https://x.test/a.zip"⟩)]
    ⟨"POST", "/.netlify/functions/api/clients",
      .jsonObject (some " Beta ") (some " https://x.test/b.zip ")⟩
    (by unfold StoreWF EntryWF; decide)

end ClientApi
